import Mathlib

/-!
Verification of the celestify email-RAG pipeline: a shallow embedding of
the ingestion pipeline (`gmail_rag.py`, `ingest_gmail_pathway.py`) and its
hybrid retrieval engine, with theorems about the constrained SQL planner
guard, the dedup step, the chunked batch fetcher with retry, the record
normalizer, the backoff schedule and the embedding wrapper.

String primitives (`lower`, `replace`, `strip`, substring containment) are
implemented over `List Char` by structural recursion so that every
definition evaluates inside the kernel.
-/

/-! ## String utilities (modelling Python `in`, `lower`, `replace`, `strip`) -/

/-- `matchesAt hay pat` is true when `pat` occurs at the head of `hay`. -/
def matchesAt : List Char → List Char → Bool
  | _, [] => true
  | [], _ :: _ => false
  | h :: t, p :: ps => h == p && matchesAt t ps

/-- `hasSub hay pat` is true when `pat` occurs contiguously inside `hay`. -/
def hasSub : List Char → List Char → Bool
  | [], pat => matchesAt [] pat
  | h :: t, pat => matchesAt (h :: t) pat || hasSub t pat

/-- `strContains s pat`: Python's `pat in s` on strings. -/
def strContains (s pat : String) : Bool :=
  hasSub s.toList pat.toList

/-- Helper for leftmost non-overlapping replacement; the `Nat` argument
counts characters still to be skipped after a match was consumed. -/
def replaceAux (pat rep : List Char) : Nat → List Char → List Char
  | _, [] => []
  | skip+1, _ :: t => replaceAux pat rep skip t
  | 0, h :: t =>
    if matchesAt (h :: t) pat then
      rep ++ replaceAux pat rep (pat.length - 1) t
    else
      h :: replaceAux pat rep 0 t

/-- Python's `str.replace`: leftmost non-overlapping occurrences of `pat`
are replaced by `rep`. -/
def replaceList (l pat rep : List Char) : List Char :=
  replaceAux pat rep 0 l

/-- Python's `str.strip()`: remove leading and trailing whitespace. -/
def trimList (l : List Char) : List Char :=
  ((l.dropWhile Char.isWhitespace).reverse.dropWhile Char.isWhitespace).reverse

/-- Python's `str.lower()` (ASCII case folding). -/
def lowerStr (s : String) : String :=
  String.mk (s.toList.map Char.toLower)

/-! ## Constrained query planner (`get_time_and_limit_sql`) -/

/-- `DEFAULT_LIMIT = 50` from the module configuration. -/
def DEFAULT_LIMIT : Nat := 50

/-- The safe default statement substituted by the guard. -/
def defaultSql : String :=
  "SELECT * FROM emails ORDER BY date DESC LIMIT " ++ toString DEFAULT_LIMIT

/-- Code-fence stripping applied to the raw model output:
`response.text.replace("```sql", "").replace("```", "").strip()`. -/
def cleanSql (resp : String) : String :=
  String.mk (trimList (replaceList (replaceList resp.toList "```sql".toList []) "```".toList []))

/-- The post-generation safety check: if the cleaned statement mentions
`sender` or `subject` (case-insensitively), substitute the safe default. -/
def validateSql (s : String) : String :=
  if strContains (lowerStr s) "sender" || strContains (lowerStr s) "subject" then
    defaultSql
  else
    s

/-- The planner post-processing pipeline of `get_time_and_limit_sql`,
applied to the raw text returned by the reasoning capability. -/
def get_time_and_limit_sql (responseText : String) : String :=
  validateSql (cleanSql responseText)

/-! ## Backoff schedule of the batch fetcher retry loop -/

/-- The sleep bound `min(10, (2 ** retry_attempt)/10)` for a retry round. -/
def sleepBound (attempt : Nat) : ℚ :=
  min 10 ((2 : ℚ) ^ attempt / 10)

/-- Sleep duration with jitter: `min(10, 2**n/10) + random.uniform(0, 0.1)`. -/
def sleepTime (attempt : Nat) (jitter : ℚ) : ℚ :=
  sleepBound attempt + jitter

/-! ## Embedding wrapper (`embed_text`) -/

/-- Outcome of one call to the embedding capability. -/
inductive EmbedResult where
  | ok (v : List ℚ)
  | failure
deriving DecidableEq, Repr

/-- The `embed_text` wrapper: empty text short-circuits to a 768-dim zero
vector with no capability call; otherwise newlines are replaced by spaces,
the capability is called once, and a failure degrades to the zero vector.
Returns the vector together with the number of capability calls made. -/
def embed_text (api : String → EmbedResult) (text : String) : List ℚ × Nat :=
  if text = "" then (List.replicate 768 0, 0)
  else
    match api (String.mk (replaceList text.toList ['\n'] [' '])) with
    | .ok v => (v, 1)
    | .failure => (List.replicate 768 0, 1)

/-! ## Email records, headers, normalization and dedup -/

/-- The persisted email record built by the batch callback. -/
structure Email where
  id : String
  text : String
  sender : String
  subject : String
  date : Int
deriving DecidableEq, Repr, Inhabited

/-- A raw message header (name/value pair). -/
structure Header where
  name : String
  value : String
deriving DecidableEq, Repr

/-- `next((h['value'] for h in headers if h['name'] == key), dflt)`:
the value of the first header whose name equals `key` exactly
(case-sensitively), or `dflt` when none matches. -/
def findHeader (headers : List Header) (key dflt : String) : String :=
  match headers.find? (fun h => h.name == key) with
  | some h => h.value
  | none => dflt

/-- The success branch of `batch_callback`: normalize a raw payload into
an `Email`. `parseDate` models `dateutil.parser.parse` (`none` = raise),
`nowUtc` models `datetime.datetime.now(datetime.timezone.utc)`. Total by
construction: a malformed payload degrades to defaults, never an error. -/
def normalizeEmail (parseDate : String → Option Int) (nowUtc : Int)
    (msgId : String) (headers : List Header) (snippet : String) : Email :=
  let subject := findHeader headers "Subject" "No Subject"
  let sender := findHeader headers "From" "Unknown"
  let rawDate := findHeader headers "Date" ""
  let dateObj :=
    match parseDate rawDate with
    | some d => d
    | none => nowUtc
  { id := msgId
    text := "From: " ++ sender ++ "\nDate: " ++ rawDate ++ "\nSubject: " ++ subject ++
      "\nContent: " ++ snippet
    sender := sender
    subject := subject
    date := dateObj }

/-- The dedup step of `main`:
`new_emails = [e for e in fetched if e['id'] not in existing_ids]`. -/
def newEmails (fetched : List Email) (existing : Finset String) : List Email :=
  fetched.filter (fun e => decide (e.id ∉ existing))

/-- Sample fetched list for the dedup witness. -/
def sampleFetch : List Email :=
  [⟨"a", "ta", "sa", "ja", 0⟩, ⟨"b", "tb", "sb", "jb", 0⟩, ⟨"c", "tc", "sc", "jc", 0⟩]

/-- Sample existing-ID set for the dedup witness. -/
def sampleExisting : Finset String := {"a", "b"}

/-! ## Resilient batch fetcher (per-chunk retry loop) -/

/-- Per-item outcome of one grouped fetch round, as classified by
`batch_callback`: success carrying the normalized record, retryable
failure (HTTP 429/500/503), or fatal failure (logged and dropped). -/
inductive FetchOutcome where
  | ok (record : Email)
  | retryable
  | fatal
deriving DecidableEq, Repr

/-- Whether the outcome is a success. -/
def FetchOutcome.isOk : FetchOutcome → Bool
  | .ok _ => true
  | _ => false

/-- Whether the outcome is a retryable failure. -/
def FetchOutcome.isRetry : FetchOutcome → Bool
  | .retryable => true
  | _ => false

/-- Whether the outcome is a fatal failure. -/
def FetchOutcome.isFatal : FetchOutcome → Bool
  | .fatal => true
  | _ => false

/-- The normalized record of a successful outcome. -/
def FetchOutcome.okRecord : FetchOutcome → Option Email
  | .ok r => some r
  | _ => none

/-- One round of `batch.execute()`: either the grouped request completes
and the callback classifies every pending id (`normal`), or the whole
request raises before any per-item callback fires and every pending id is
marked retryable (`hardFail`, the `except` branch around
`batch.execute()`). -/
inductive Round where
  | normal (outcome : String → FetchOutcome)
  | hardFail

/-- The classification a round assigns to one pending id. -/
def classify : Round → String → FetchOutcome
  | .normal f, i => f i
  | .hardFail, _ => .retryable

/-- Loop state for one chunk: ids still to fetch (`pending`, which is also
the retryable set produced by the previous round), accumulated successful
ids and records (`email_data`), fatal ids, and whether the
`while current_batch_ids:` loop has exited. -/
structure ChunkState where
  pending : List String
  succIds : List String
  succData : List Email
  fatalIds : List String
  resolved : Bool
deriving DecidableEq, Repr

/-- Initial state for a chunk (an empty chunk never enters the loop). -/
def initState (chunk : List String) : ChunkState :=
  ⟨chunk, [], [], [], chunk.isEmpty⟩

/-- One iteration of the per-chunk retry loop: classify every pending id,
extend the accumulators with this round's successes and fatal drops, and
carry the retryable subset over as the next pending set; the loop breaks
exactly when that subset is empty. -/
def stepRound (r : Round) (s : ChunkState) : ChunkState :=
  if s.resolved then s
  else
    ⟨s.pending.filter (fun i => (classify r i).isRetry),
     s.succIds ++ s.pending.filter (fun i => (classify r i).isOk),
     s.succData ++ s.pending.filterMap (fun i => (classify r i).okRecord),
     s.fatalIds ++ s.pending.filter (fun i => (classify r i).isFatal),
     (s.pending.filter (fun i => (classify r i).isRetry)).isEmpty⟩

/-- Run a sequence of rounds from a state. -/
def runRounds : List Round → ChunkState → ChunkState
  | [], s => s
  | r :: rs, s => runRounds rs (stepRound r s)

/-- Process one chunk of ids through the given sequence of rounds. -/
def processChunk (rounds : List Round) (chunk : List String) : ChunkState :=
  runRounds rounds (initState chunk)

/-- The invariant tying a loop state back to its chunk: the succeeded,
fatal and pending id lists partition the chunk (up to order), and the loop
has exited exactly when the pending/retryable set is empty. -/
def StateInv (chunk : List String) (s : ChunkState) : Prop :=
  (s.succIds ++ s.fatalIds ++ s.pending).Perm chunk ∧ s.resolved = s.pending.isEmpty

/-- Sample chunk for the batch-fetcher witnesses. -/
def sampleChunk : List String := ["a", "b"]

/-- Sample round: id `a` succeeds, everything else is rate-limited. -/
def sampleRounds : List Round :=
  [Round.normal (fun i =>
    if i == "a" then FetchOutcome.ok ⟨"a", "t", "s", "j", 0⟩ else FetchOutcome.retryable)]

/-- Sample continuation rounds: a hard transport failure. -/
def sampleRounds2 : List Round := [Round.hardFail]

/-! ## Hybrid retriever (step C of `main`) -/

/-- `np.dot` of two vectors. -/
def dot (v w : List ℚ) : ℚ :=
  (List.zipWith (fun a b => a * b) v w).sum

/-- The similarity score of one row: the dot product of its document
embedding with the query embedding. -/
def score (embedDoc : String → List ℚ) (qv : List ℚ) (e : Email) : ℚ :=
  dot (embedDoc e.text) qv

/-- `np.argsort(scores)`: the indices `0 .. n-1` sorted by ascending
score. -/
def argsortAsc (scores : List ℚ) : List Nat :=
  (List.range scores.length).mergeSort (fun i j => decide (scores.getD i 0 ≤ scores.getD j 0))

/-- `np.argsort(scores)[-7:][::-1]`: the indices of the (at most) 7
highest scores, highest first. -/
def topIndices (scores : List ℚ) : List Nat :=
  ((argsortAsc scores).drop (scores.length - 7)).reverse

/-- Result of the hybrid retrieval step: the selected context rows plus
the number of document-embedding and query-embedding requests issued. -/
structure RetrievalResult where
  context : List Email
  docEmbeds : Nat
  queryEmbeds : Nat
deriving DecidableEq, Repr

/-- The hybrid search logic of `main`: when the SQL result set is small
enough it is passed through unchanged with no embedding calls; otherwise
every row's text is embedded, the question is embedded once, rows are
scored by dot product and the top 7 are kept in descending score order. -/
def retrieve (embedDoc : String → List ℚ) (qv : List ℚ) (rows : List Email) :
    RetrievalResult :=
  if rows.length ≤ DEFAULT_LIMIT then ⟨rows, 0, 0⟩
  else
    ⟨(topIndices (rows.map (score embedDoc qv))).map (fun i => rows.getD i default),
     rows.length, 1⟩

/-- Small result set (2 rows) for the retrieval witness. -/
def sampleRows : List Email :=
  [⟨"a", "t1", "s", "j", 0⟩, ⟨"b", "t2", "s", "j", 0⟩]

/-- Large result set (51 rows) for the retrieval witness. -/
def bigRows : List Email :=
  (List.range 51).map (fun k => ⟨"i", "t", "s", "j", (k : Int)⟩)

/-! # Theorems -/

/-- The three outcome classes of a round split the pending ids without
loss or duplication. -/
theorem classify_partition (r : Round) (l : List String) :
    (l.filter (fun i => (classify r i).isOk) ++ l.filter (fun i => (classify r i).isFatal) ++
      l.filter (fun i => (classify r i).isRetry)).Perm l := by
  induction l with
  | nil => simp
  | cons hd tl ih =>
    rcases hcl : classify r hd with rec | _ | _ <;>
      simp only [List.filter_cons, hcl, FetchOutcome.isOk, FetchOutcome.isFatal,
        FetchOutcome.isRetry, if_true, if_false, cond_true, cond_false]
    · exact (List.Perm.cons hd ih)
    · exact (List.perm_middle).trans (List.Perm.cons hd ih)
    · exact (List.perm_middle.append_right _).trans (List.Perm.cons hd ih)

/-- The first matching element wins for `List.find?` on an append whose
left part has no match. -/
theorem find?_append_first {α : Type} {p : α → Bool} :
    ∀ (pre : List α) (x : α) (rest : List α),
      (∀ y ∈ pre, p y = false) → p x = true → (pre ++ x :: rest).find? p = some x
  | [], x, rest, _, hx => by
    rw [List.nil_append, List.find?_cons_of_pos _ hx]
  | hd :: tl, x, rest, hpre, hx => by
    rw [List.cons_append, List.find?_cons_of_neg]
    · exact find?_append_first tl x rest (fun y hy => hpre y (List.mem_cons_of_mem _ hy)) hx
    · simp [hpre hd (List.mem_cons_self _ _)]

/-- When no header has name `key`, `findHeader` yields the default. -/
theorem findHeader_eq_default (headers : List Header) (key dflt : String)
    (h : ∀ hd ∈ headers, hd.name ≠ key) : findHeader headers key dflt = dflt := by
  unfold findHeader
  rw [List.find?_eq_none.mpr (fun x hx => by simpa using h x hx)]

/-- `findHeader` returns the value of the first exactly-matching header. -/
theorem findHeader_first (pre : List Header) (v : String) (rest : List Header)
    (key dflt : String) (hpre : ∀ hd ∈ pre, hd.name ≠ key) :
    findHeader (pre ++ (⟨key, v⟩ : Header) :: rest) key dflt = v := by
  unfold findHeader
  rw [find?_append_first pre ⟨key, v⟩ rest (fun y hy => by simpa using hpre y hy) (by simp)]

/-- C1: for every planner output, if the code-fence-stripped statement
contains `sender` or `subject` case-insensitively, then
`get_time_and_limit_sql` returns exactly the safe default
`SELECT * FROM emails ORDER BY date DESC LIMIT 50`. -/
theorem guard_forces_default (resp : String)
    (h : strContains (lowerStr (cleanSql resp)) "sender" = true ∨
         strContains (lowerStr (cleanSql resp)) "subject" = true) :
    get_time_and_limit_sql resp = defaultSql := by
  unfold get_time_and_limit_sql validateSql
  rcases h with h | h <;> simp [h]

/-- Witness for C1: a statement filtering on `Sender` (inside a code fence)
is replaced by the safe default. -/
theorem guard_forces_default_witness :
    (strContains (lowerStr (cleanSql "```sql SELECT * FROM emails WHERE Sender = bob```")) "sender" = true ∨
     strContains (lowerStr (cleanSql "```sql SELECT * FROM emails WHERE Sender = bob```")) "subject" = true) ∧
    get_time_and_limit_sql "```sql SELECT * FROM emails WHERE Sender = bob```" = defaultSql :=
  ⟨Or.inl (by decide),
   guard_forces_default "```sql SELECT * FROM emails WHERE Sender = bob```" (Or.inl (by decide))⟩

/-- C8 counterexample: the guard checks only the substrings `sender` and
`subject`, so a plan filtering on the body column `text` survives
validation unchanged — refuting the claim that every surviving plan never
references the body (text/content) columns. -/
theorem body_filter_survives_guard :
    get_time_and_limit_sql "SELECT * FROM emails WHERE text LIKE pat ORDER BY date DESC LIMIT 5" =
      "SELECT * FROM emails WHERE text LIKE pat ORDER BY date DESC LIMIT 5" ∧
    strContains
      (lowerStr (get_time_and_limit_sql
        "SELECT * FROM emails WHERE text LIKE pat ORDER BY date DESC LIMIT 5")) "text" = true ∧
    get_time_and_limit_sql "SELECT * FROM emails WHERE text LIKE pat ORDER BY date DESC LIMIT 5" ≠
      defaultSql := by
  refine ⟨by decide, by decide, by decide⟩

/-- C8 (amended): every plan returned by the planner post-processing is
free of the substrings `sender` and `subject` (case-insensitively); the
body/text column is not guarded against. -/
theorem surviving_plan_no_sender_subject (resp : String) :
    strContains (lowerStr (get_time_and_limit_sql resp)) "sender" = false ∧
    strContains (lowerStr (get_time_and_limit_sql resp)) "subject" = false := by
  unfold get_time_and_limit_sql validateSql
  by_cases hs : strContains (lowerStr (cleanSql resp)) "sender" = true
  · simp only [hs, Bool.true_or, if_pos]
    exact ⟨by decide, by decide⟩
  · by_cases ht : strContains (lowerStr (cleanSql resp)) "subject" = true
    · simp only [ht, Bool.or_true, if_pos]
      exact ⟨by decide, by decide⟩
    · simp only [Bool.not_eq_true] at hs ht
      rw [hs, ht]
      simp only [Bool.or_self, Bool.false_eq_true, if_false]
      exact ⟨hs, ht⟩

/-- C6: the backoff bound for retry attempt `n` is `min(10, 2^n / 10)`;
it is non-decreasing in `n`, reaches the 10-second cap from attempt 7 on
and is constant thereafter; the slept duration adds a jitter in
`[0, 0.1)` on top of the bound. -/
theorem backoff_monotone_capped (n : Nat) (j : ℚ)
    (_hn : 1 ≤ n) (hj0 : 0 ≤ j) (hj1 : j < 1/10) :
    sleepBound n = min 10 ((2 : ℚ) ^ n / 10) ∧
    sleepBound n ≤ sleepBound (n + 1) ∧
    (7 ≤ n → sleepBound n = 10) ∧
    sleepBound n ≤ sleepTime n j ∧
    sleepTime n j < sleepBound n + 1/10 := by
  refine ⟨rfl, ?_, ?_, ?_, ?_⟩
  · apply min_le_min le_rfl
    rw [div_le_div_iff_of_pos_right (by norm_num : (0:ℚ) < 10)]
    exact pow_le_pow_right₀ (by norm_num) (Nat.le_succ n)
  · intro h7
    have h2 : (100 : ℚ) ≤ 2 ^ n := by
      calc (100 : ℚ) ≤ 2 ^ 7 := by norm_num
        _ ≤ 2 ^ n := pow_le_pow_right₀ (by norm_num) h7
    have : (10 : ℚ) ≤ 2 ^ n / 10 := by
      rw [le_div_iff₀ (by norm_num : (0:ℚ) < 10)]
      linarith
    exact min_eq_left this
  · simpa [sleepTime] using hj0
  · simpa [sleepTime] using hj1

/-- Witness for C6: the bound at attempts 7 and 8 is exactly the cap. -/
theorem backoff_monotone_capped_witness :
    sleepBound 7 = min 10 ((2 : ℚ) ^ 7 / 10) ∧
    sleepBound 7 ≤ sleepBound 8 ∧
    (7 ≤ 7 → sleepBound 7 = 10) ∧
    sleepBound 7 ≤ sleepTime 7 (1/20) ∧
    sleepTime 7 (1/20) < sleepBound 7 + 1/10 :=
  backoff_monotone_capped 7 (1/20) (by norm_num) (by norm_num) (by norm_num)

/-- C10: `embed_text` on the empty string returns the 768-dimensional zero
vector with zero capability calls, and that is the very vector an
embedding-capability failure degrades to (with one call made). -/
theorem embed_empty_zero_no_call (api api2 : String → EmbedResult) (t : String)
    (ht : t ≠ "") (hfail : api2 (String.mk (replaceList t.toList ['\n'] [' '])) = .failure) :
    embed_text api "" = (List.replicate 768 0, 0) ∧
    (embed_text api "").1.length = 768 ∧
    (embed_text api2 t).1 = (embed_text api "").1 ∧
    (embed_text api2 t).2 = 1 := by
  have he : embed_text api "" = (List.replicate 768 0, 0) := by
    unfold embed_text
    rw [if_pos rfl]
  have h2 : embed_text api2 t = (List.replicate 768 0, 1) := by
    unfold embed_text
    rw [if_neg ht, hfail]
  refine ⟨he, ?_, ?_, ?_⟩
  · rw [he]
    exact List.length_replicate 768 0
  · rw [he, h2]
  · rw [h2]

/-- Witness for C10: with a capability that always fails, the nonempty
text `"x"` degrades to the same zero vector the empty text returns. -/
theorem embed_empty_zero_no_call_witness :
    embed_text (fun _ => EmbedResult.failure) "" = (List.replicate 768 0, 0) ∧
    (embed_text (fun _ => EmbedResult.failure) "").1.length = 768 ∧
    (embed_text (fun _ => EmbedResult.failure) "x").1 =
      (embed_text (fun _ => EmbedResult.failure) "").1 ∧
    (embed_text (fun _ => EmbedResult.failure) "x").2 = 1 :=
  embed_empty_zero_no_call (fun _ => EmbedResult.failure) (fun _ => EmbedResult.failure) "x"
    (by decide) rfl

/-- C3: the dedup step appends exactly the fetched records whose id is not
already stored: the appended count is `|F \ E|`, no appended record's id
lies in `E`, and when every fetched id is already known nothing is
appended. -/
theorem dedup_appends_new_only (F : List Email) (E : Finset String)
    (hnd : (F.map Email.id).Nodup) :
    (newEmails F E).length = ((F.map Email.id).toFinset \ E).card ∧
    (∀ e ∈ newEmails F E, e.id ∉ E) ∧
    ((∀ e ∈ F, e.id ∈ E) → newEmails F E = []) := by
  refine ⟨?_, ?_, ?_⟩
  · have hsub : ((newEmails F E).map Email.id).Sublist (F.map Email.id) :=
      List.Sublist.map Email.id (List.filter_sublist F)
    have hnd2 : ((newEmails F E).map Email.id).Nodup := List.Nodup.sublist hsub hnd
    have hlen : (newEmails F E).length = ((newEmails F E).map Email.id).length :=
      (List.length_map _ _).symm
    rw [hlen, ← List.toFinset_card_of_nodup hnd2]
    congr 1
    ext x
    simp only [List.mem_toFinset, Finset.mem_sdiff, List.mem_map, newEmails, List.mem_filter,
      decide_eq_true_eq]
    constructor
    · rintro ⟨e, ⟨heF, hp⟩, rfl⟩
      exact ⟨⟨e, heF, rfl⟩, hp⟩
    · rintro ⟨⟨e, heF, rfl⟩, hx⟩
      exact ⟨e, ⟨heF, hx⟩, rfl⟩
  · intro e he
    rw [newEmails, List.mem_filter] at he
    simpa using he.2
  · intro hall
    rw [newEmails, List.filter_eq_nil_iff]
    intro e he
    simpa using hall e he

/-- Witness for C3: fetching `[a, b, c]` with `{a, b}` already stored
appends exactly one record, and it is not a stored one. -/
theorem dedup_appends_new_only_witness :
    (newEmails sampleFetch sampleExisting).length =
      ((sampleFetch.map Email.id).toFinset \ sampleExisting).card ∧
    (∀ e ∈ newEmails sampleFetch sampleExisting, e.id ∉ sampleExisting) ∧
    ((∀ e ∈ sampleFetch, e.id ∈ sampleExisting) → newEmails sampleFetch sampleExisting = []) :=
  dedup_appends_new_only sampleFetch sampleExisting (by decide)

/-- C7: the normalizer takes the first exact case-sensitive match for the
`Subject`, `From` and `Date` headers, defaulting to `"No Subject"`,
`"Unknown"` and `""` when absent; an unparseable date falls back to the
current UTC time instead of dropping the record; the function is total, so
no payload is ever rejected. -/
theorem normalizer_first_match_defaults (pd : String → Option Int) (now : Int)
    (msgId : String) (headers : List Header) (snippet : String) :
    ((∀ hd ∈ headers, hd.name ≠ "Subject") →
      (normalizeEmail pd now msgId headers snippet).subject = "No Subject") ∧
    ((∀ hd ∈ headers, hd.name ≠ "From") →
      (normalizeEmail pd now msgId headers snippet).sender = "Unknown") ∧
    (∀ pre v rest, headers = pre ++ (⟨"Subject", v⟩ : Header) :: rest →
      (∀ hd ∈ pre, hd.name ≠ "Subject") →
      (normalizeEmail pd now msgId headers snippet).subject = v) ∧
    (∀ pre v rest, headers = pre ++ (⟨"From", v⟩ : Header) :: rest →
      (∀ hd ∈ pre, hd.name ≠ "From") →
      (normalizeEmail pd now msgId headers snippet).sender = v) ∧
    (pd (findHeader headers "Date" "") = none →
      (normalizeEmail pd now msgId headers snippet).date = now) ∧
    (∀ d, pd (findHeader headers "Date" "") = some d →
      (normalizeEmail pd now msgId headers snippet).date = d) := by
  refine ⟨?_, ?_, ?_, ?_, ?_, ?_⟩
  · intro h
    simp only [normalizeEmail]
    exact findHeader_eq_default headers "Subject" "No Subject" h
  · intro h
    simp only [normalizeEmail]
    exact findHeader_eq_default headers "From" "Unknown" h
  · intro pre v rest heq hpre
    subst heq
    simp only [normalizeEmail]
    exact findHeader_first pre v rest "Subject" "No Subject" hpre
  · intro pre v rest heq hpre
    subst heq
    simp only [normalizeEmail]
    exact findHeader_first pre v rest "From" "Unknown" hpre
  · intro h
    simp only [normalizeEmail, h]
  · intro d h
    simp only [normalizeEmail, h]

/-- Witness for C7: a payload whose only header is the lowercase
`subject` (not an exact match) gets all three defaults, and the
unparseable empty date string falls back to the supplied UTC clock. -/
theorem normalizer_first_match_defaults_witness :
    (normalizeEmail (fun _ => none) 42 "m1" [⟨"subject", "x"⟩] "snip").subject = "No Subject" ∧
    (normalizeEmail (fun _ => none) 42 "m1" [⟨"subject", "x"⟩] "snip").sender = "Unknown" ∧
    (normalizeEmail (fun _ => none) 42 "m1" [⟨"subject", "x"⟩] "snip").date = 42 := by
  have h := normalizer_first_match_defaults (fun _ => none) 42 "m1" [⟨"subject", "x"⟩] "snip"
  exact ⟨h.1 (by decide), h.2.1 (by decide), h.2.2.2.2.1 rfl⟩

/-- The loop invariant holds before the first round. -/
theorem inv_init (chunk : List String) : StateInv chunk (initState chunk) := by
  unfold StateInv initState
  exact ⟨by simp, rfl⟩

/-- One loop iteration preserves the invariant. -/
theorem inv_step (chunk : List String) (r : Round) (s : ChunkState)
    (h : StateInv chunk s) : StateInv chunk (stepRound r s) := by
  obtain ⟨p, si, sd, fi, rv⟩ := s
  cases rv with
  | true => exact h
  | false =>
    have hstep : stepRound r ⟨p, si, sd, fi, false⟩ =
        ⟨p.filter (fun i => (classify r i).isRetry),
         si ++ p.filter (fun i => (classify r i).isOk),
         sd ++ p.filterMap (fun i => (classify r i).okRecord),
         fi ++ p.filter (fun i => (classify r i).isFatal),
         (p.filter (fun i => (classify r i).isRetry)).isEmpty⟩ := rfl
    unfold StateInv at h ⊢
    rw [hstep]
    refine ⟨?_, rfl⟩
    show ((si ++ p.filter (fun i => (classify r i).isOk)) ++
      (fi ++ p.filter (fun i => (classify r i).isFatal)) ++
      p.filter (fun i => (classify r i).isRetry)).Perm chunk
    have h1 : (si ++ fi ++ p).Perm chunk := h.1
    have hpart := classify_partition r p
    rw [← Multiset.coe_eq_coe] at h1 hpart ⊢
    simp only [← Multiset.coe_add] at h1 hpart ⊢
    rw [← h1, ← hpart]
    abel

/-- Running rounds in sequence composes. -/
theorem runRounds_append (a b : List Round) (s : ChunkState) :
    runRounds (a ++ b) s = runRounds b (runRounds a s) := by
  induction a generalizing s with
  | nil => rfl
  | cons r rs ih =>
    rw [List.cons_append]
    show runRounds (rs ++ b) (stepRound r s) = _
    rw [ih]
    rfl

/-- The invariant is preserved by any sequence of rounds. -/
theorem inv_runRounds (chunk : List String) (rounds : List Round) (s : ChunkState)
    (h : StateInv chunk s) : StateInv chunk (runRounds rounds s) := by
  induction rounds generalizing s with
  | nil => exact h
  | cons r rs ih => exact ih _ (inv_step chunk r s h)

/-- The invariant holds after processing a chunk through any rounds. -/
theorem inv_processChunk (rounds : List Round) (chunk : List String) :
    StateInv chunk (processChunk rounds chunk) :=
  inv_runRounds chunk rounds _ (inv_init chunk)

/-- Accumulated successful records are never removed by later rounds. -/
theorem succData_mono (rounds : List Round) (s : ChunkState) :
    s.succData ⊆ (runRounds rounds s).succData := by
  induction rounds generalizing s with
  | nil => exact fun x hx => hx
  | cons r rs ih =>
    intro x hx
    apply ih (stepRound r s)
    unfold stepRound
    by_cases hr : s.resolved
    · rw [if_pos hr]
      exact hx
    · rw [if_neg hr]
      exact List.mem_append_left _ hx

/-- Accumulated successful ids are never removed by later rounds. -/
theorem succIds_mono (rounds : List Round) (s : ChunkState) :
    s.succIds ⊆ (runRounds rounds s).succIds := by
  induction rounds generalizing s with
  | nil => exact fun x hx => hx
  | cons r rs ih =>
    intro x hx
    apply ih (stepRound r s)
    unfold stepRound
    by_cases hr : s.resolved
    · rw [if_pos hr]
      exact hx
    · rw [if_neg hr]
      exact List.mem_append_left _ hx

/-- C4: after any number of rounds the succeeded/fatal/pending id lists
partition the chunk — every id is in exactly one state (retryable being
the pending set of the following round) — an id that has succeeded never
reappears in the pending/retryable set of any later round, and the chunk
counts as resolved exactly when the pending/retryable set is empty. -/
theorem chunk_four_state_partition (rounds rounds2 : List Round) (chunk : List String)
    (hnd : chunk.Nodup) :
    ((processChunk rounds chunk).succIds ++ (processChunk rounds chunk).fatalIds ++
      (processChunk rounds chunk).pending).Perm chunk ∧
    ((processChunk rounds chunk).succIds ++ (processChunk rounds chunk).fatalIds ++
      (processChunk rounds chunk).pending).Nodup ∧
    (∀ i ∈ (processChunk rounds chunk).succIds,
      i ∉ (processChunk (rounds ++ rounds2) chunk).pending) ∧
    (processChunk rounds chunk).resolved = (processChunk rounds chunk).pending.isEmpty := by
  have hinv := inv_processChunk rounds chunk
  have hinv2 := inv_processChunk (rounds ++ rounds2) chunk
  refine ⟨hinv.1, (hinv.1.nodup_iff).mpr hnd, ?_, hinv.2⟩
  intro i hi hpend
  have hi2 : i ∈ (processChunk (rounds ++ rounds2) chunk).succIds := by
    have hsub : (processChunk rounds chunk).succIds ⊆
        (processChunk (rounds ++ rounds2) chunk).succIds := by
      rw [processChunk, processChunk, runRounds_append]
      exact succIds_mono rounds2 _
    exact hsub hi
  have hnd2 : ((processChunk (rounds ++ rounds2) chunk).succIds ++
      (processChunk (rounds ++ rounds2) chunk).fatalIds ++
      (processChunk (rounds ++ rounds2) chunk).pending).Nodup :=
    (hinv2.1.nodup_iff).mpr hnd
  exact (List.disjoint_of_nodup_append hnd2) (List.mem_append_left _ hi2) hpend

/-- Witness for C4: chunk `[a, b]`, a round where `a` succeeds and `b` is
rate-limited, followed by a hard transport failure. -/
theorem chunk_four_state_partition_witness :
    ((processChunk sampleRounds sampleChunk).succIds ++
      (processChunk sampleRounds sampleChunk).fatalIds ++
      (processChunk sampleRounds sampleChunk).pending).Perm sampleChunk ∧
    ((processChunk sampleRounds sampleChunk).succIds ++
      (processChunk sampleRounds sampleChunk).fatalIds ++
      (processChunk sampleRounds sampleChunk).pending).Nodup ∧
    (∀ i ∈ (processChunk sampleRounds sampleChunk).succIds,
      i ∉ (processChunk (sampleRounds ++ sampleRounds2) sampleChunk).pending) ∧
    (processChunk sampleRounds sampleChunk).resolved =
      (processChunk sampleRounds sampleChunk).pending.isEmpty :=
  chunk_four_state_partition sampleRounds sampleRounds2 sampleChunk (by decide)

/-- C5: records successfully fetched and normalized in the rounds already
run for a chunk are retained in the accumulated result no matter how the
remaining rounds go — later retryable failures never evict them. -/
theorem batch_partial_resilience (rounds1 rounds2 : List Round) (chunk : List String) :
    (processChunk rounds1 chunk).succData ⊆ (processChunk (rounds1 ++ rounds2) chunk).succData := by
  rw [processChunk, processChunk, runRounds_append]
  exact succData_mono rounds2 _

/-- A hard-failure round on a non-resolved state with nonempty pending
set leaves the state unchanged. -/
theorem hardFail_stepRound (p si : List String) (sd : List Email) (fi : List String)
    (hp : p ≠ []) :
    stepRound Round.hardFail ⟨p, si, sd, fi, false⟩ = ⟨p, si, sd, fi, false⟩ := by
  unfold stepRound
  simp [classify, FetchOutcome.isRetry, FetchOutcome.isOk, FetchOutcome.isFatal,
    FetchOutcome.okRecord, hp]

/-- Under permanent hard failure, the chunk state is a fixed point. -/
theorem hardFail_runRounds (chunk : List String) (h : chunk ≠ []) (n : Nat) :
    runRounds (List.replicate n Round.hardFail) (initState chunk) =
      ⟨chunk, [], [], [], false⟩ := by
  have hinit : initState chunk = ⟨chunk, [], [], [], false⟩ := by
    unfold initState
    simp [h]
  rw [hinit]
  induction n with
  | zero => rfl
  | succ m ih =>
    rw [List.replicate_succ]
    show runRounds (List.replicate m Round.hardFail)
      (stepRound Round.hardFail ⟨chunk, [], [], [], false⟩) = _
    rw [hardFail_stepRound chunk [] [] [] h]
    exact ih

/-- C9: the per-chunk retry loop has no attempt ceiling: it exits exactly
when a round yields an empty retryable set, and with a persistently
failing chunk the loop is still unresolved — with the whole chunk still
pending — after arbitrarily many rounds. -/
theorem retry_loop_no_ceiling (chunk : List String) (n : Nat) (h : chunk ≠ []) :
    (processChunk (List.replicate n Round.hardFail) chunk).resolved = false ∧
    (processChunk (List.replicate n Round.hardFail) chunk).pending = chunk ∧
    ∀ rs : List Round, (processChunk rs chunk).resolved =
      (processChunk rs chunk).pending.isEmpty := by
  have hrun := hardFail_runRounds chunk h n
  refine ⟨?_, ?_, fun rs => (inv_processChunk rs chunk).2⟩
  · rw [processChunk, hrun]
  · rw [processChunk, hrun]

/-- Witness for C9: on the chunk `[a, b]`, three hard-failure rounds
leave the loop unresolved with both ids still pending. -/
theorem retry_loop_no_ceiling_witness :
    (processChunk (List.replicate 3 Round.hardFail) sampleChunk).resolved = false ∧
    (processChunk (List.replicate 3 Round.hardFail) sampleChunk).pending = sampleChunk ∧
    ∀ rs : List Round, (processChunk rs sampleChunk).resolved =
      (processChunk rs sampleChunk).pending.isEmpty :=
  retry_loop_no_ceiling sampleChunk 3 (by decide)

/-- Mapping `getD` over the full index range reproduces the list. -/
theorem range_map_getD {α : Type} (l : List α) (d : α) :
    (List.range l.length).map (fun i => l.getD i d) = l := by
  apply List.ext_getElem
  · simp
  · intro i h1 h2
    simp only [List.getElem_map, List.getElem_range]
    exact List.getD_eq_getElem l d h2

/-- `argsortAsc` permutes the index range. -/
theorem argsortAsc_perm (scores : List ℚ) :
    (argsortAsc scores).Perm (List.range scores.length) :=
  List.mergeSort_perm _ _

/-- Every index produced by `argsortAsc` is in range. -/
theorem argsortAsc_mem (scores : List ℚ) :
    ∀ i ∈ argsortAsc scores, i < scores.length := by
  intro i hi
  have h := (argsortAsc_perm scores).mem_iff.mp hi
  simpa using h

/-- `argsortAsc` sorts the indices by ascending score. -/
theorem argsortAsc_sorted (scores : List ℚ) :
    (argsortAsc scores).Pairwise (fun i j => scores.getD i 0 ≤ scores.getD j 0) := by
  unfold argsortAsc
  have h := @List.sorted_mergeSort Nat (fun i j => decide (scores.getD i 0 ≤ scores.getD j 0))
    (fun a b c hab hbc =>
      decide_eq_true (le_trans (of_decide_eq_true hab) (of_decide_eq_true hbc)))
    (fun a b => by
      simp only [Bool.or_eq_true, decide_eq_true_eq]
      exact le_total (scores.getD a 0) (scores.getD b 0))
    (List.range scores.length)
  exact h.imp (fun hab => of_decide_eq_true hab)

/-- Sorting by the flipped comparison yields a descending list. -/
theorem sortedDesc_mergeSort (scores : List ℚ) :
    (scores.mergeSort (fun a b => decide (b ≤ a))).Pairwise (fun a b : ℚ => b ≤ a) := by
  have h := @List.sorted_mergeSort ℚ (fun a b => decide (b ≤ a))
    (fun a b c hab hbc =>
      decide_eq_true (le_trans (of_decide_eq_true hbc) (of_decide_eq_true hab)))
    (fun a b => by
      rcases le_total a b with h | h
      · simp [h]
      · simp [h])
    scores
  exact h.imp (fun hab => of_decide_eq_true hab)

/-- `topIndices` selects exactly 7 in-range indices whose scores, read in
order, are the first 7 entries of the descending sort of all scores. -/
theorem topIndices_take_sorted (scores : List ℚ) (h7 : 7 ≤ scores.length) :
    (topIndices scores).length = 7 ∧
    (∀ i ∈ topIndices scores, i < scores.length) ∧
    (topIndices scores).map (fun i => scores.getD i 0) =
      (scores.mergeSort (fun a b => decide (b ≤ a))).take 7 := by
  have hA := argsortAsc_perm scores
  have hAlen : (argsortAsc scores).length = scores.length := by
    rw [hA.length_eq, List.length_range]
  refine ⟨?_, ?_, ?_⟩
  · unfold topIndices
    rw [List.length_reverse, List.length_drop, hAlen]
    omega
  · intro i hi
    unfold topIndices at hi
    rw [List.mem_reverse] at hi
    exact argsortAsc_mem scores i (List.mem_of_mem_drop hi)
  · have hg : (List.range scores.length).map (fun i => scores.getD i 0) = scores :=
      range_map_getD scores 0
    have hSperm : ((argsortAsc scores).map (fun i => scores.getD i 0)).Perm scores := by
      refine (hA.map _).trans ?_
      rw [hg]
    have hSsorted : ((argsortAsc scores).map (fun i => scores.getD i 0)).Pairwise
        (fun a b : ℚ => a ≤ b) :=
      List.Pairwise.map _ (fun a b h => h) (argsortAsc_sorted scores)
    have hSlen : ((argsortAsc scores).map (fun i => scores.getD i 0)).length = scores.length := by
      rw [List.length_map, hAlen]
    haveI : IsAntisymm ℚ (fun a b : ℚ => b ≤ a) := ⟨fun a b h1 h2 => le_antisymm h2 h1⟩
    have hrevSorted : ((argsortAsc scores).map (fun i => scores.getD i 0)).reverse.Pairwise
        (fun a b : ℚ => b ≤ a) := by
      rw [List.pairwise_reverse]
      exact hSsorted
    have hrevT : ((argsortAsc scores).map (fun i => scores.getD i 0)).reverse =
        scores.mergeSort (fun a b => decide (b ≤ a)) := by
      refine List.eq_of_perm_of_sorted ?_ hrevSorted (sortedDesc_mergeSort scores)
      exact (List.reverse_perm _).trans (hSperm.trans (List.mergeSort_perm scores _).symm)
    unfold topIndices
    rw [List.map_reverse, List.map_drop]
    have hrt := @List.reverse_take ℚ
      (((argsortAsc scores).map (fun i => scores.getD i 0)).reverse) 7
    rw [List.reverse_reverse, List.length_reverse, hSlen] at hrt
    rw [hrevT] at hrt
    rw [← hrt, List.reverse_reverse]

/-- C2: with at most `DEFAULT_LIMIT` rows the context is the result set
unchanged and no embedding calls are made; with more rows, every row's
text is embedded, the question is embedded once, and the context is the 7
highest-scoring rows in descending score order (so at most 7 rows). -/
theorem hybrid_retrieval_funnel (embedDoc : String → List ℚ) (qv : List ℚ)
    (rows : List Email) (_hne : rows ≠ []) :
    (rows.length ≤ DEFAULT_LIMIT →
      retrieve embedDoc qv rows = ⟨rows, 0, 0⟩) ∧
    (DEFAULT_LIMIT < rows.length →
      (retrieve embedDoc qv rows).docEmbeds = rows.length ∧
      (retrieve embedDoc qv rows).queryEmbeds = 1 ∧
      (retrieve embedDoc qv rows).context.length = 7 ∧
      List.Sorted (fun a b => b ≤ a)
        ((retrieve embedDoc qv rows).context.map (score embedDoc qv)) ∧
      (retrieve embedDoc qv rows).context.map (score embedDoc qv) =
        ((rows.map (score embedDoc qv)).mergeSort (fun a b => decide (b ≤ a))).take 7) := by
  constructor
  · intro hle
    unfold retrieve
    rw [if_pos hle]
  · intro hgt
    have hnle : ¬ rows.length ≤ DEFAULT_LIMIT := not_le.mpr hgt
    have hret : retrieve embedDoc qv rows =
        ⟨(topIndices (rows.map (score embedDoc qv))).map (fun i => rows.getD i default),
         rows.length, 1⟩ := by
      unfold retrieve
      rw [if_neg hnle]
    have h7 : 7 ≤ (rows.map (score embedDoc qv)).length := by
      rw [List.length_map]
      have hd : DEFAULT_LIMIT = 50 := rfl
      omega
    obtain ⟨hlen, hmem, hmap⟩ := topIndices_take_sorted (rows.map (score embedDoc qv)) h7
    have hcongr : ((topIndices (rows.map (score embedDoc qv))).map
        (fun i => rows.getD i default)).map (score embedDoc qv) =
        (topIndices (rows.map (score embedDoc qv))).map
          (fun i => (rows.map (score embedDoc qv)).getD i 0) := by
      rw [List.map_map]
      apply List.map_congr_left
      intro i hi
      have hilt : i < rows.length := by
        have h := hmem i hi
        rwa [List.length_map] at h
      have h2 : i < (rows.map (score embedDoc qv)).length := by
        rw [List.length_map]
        exact hilt
      show score embedDoc qv (rows.getD i default) = (rows.map (score embedDoc qv)).getD i 0
      rw [List.getD_eq_getElem rows default hilt, List.getD_eq_getElem _ 0 h2, List.getElem_map]
    refine ⟨by rw [hret], by rw [hret], ?_, ?_, ?_⟩
    · rw [hret]
      show ((topIndices (rows.map (score embedDoc qv))).map
        (fun i => rows.getD i default)).length = 7
      rw [List.length_map]
      exact hlen
    · rw [hret]
      show List.Sorted (fun a b => b ≤ a)
        (((topIndices (rows.map (score embedDoc qv))).map
          (fun i => rows.getD i default)).map (score embedDoc qv))
      rw [hcongr, hmap]
      exact List.Pairwise.sublist (List.take_sublist _ _) (sortedDesc_mergeSort _)
    · rw [hret]
      show ((topIndices (rows.map (score embedDoc qv))).map
          (fun i => rows.getD i default)).map (score embedDoc qv) =
        ((rows.map (score embedDoc qv)).mergeSort (fun a b => decide (b ≤ a))).take 7
      rw [hcongr, hmap]

/-- Witness for C2: a 2-row result set passes through untouched with zero
embedding calls; a 51-row result set is cut down to 7 context rows. -/
theorem hybrid_retrieval_funnel_witness :
    retrieve (fun _ => [1]) [1] sampleRows = ⟨sampleRows, 0, 0⟩ ∧
    (retrieve (fun _ => [1]) [1] bigRows).docEmbeds = bigRows.length ∧
    (retrieve (fun _ => [1]) [1] bigRows).queryEmbeds = 1 ∧
    (retrieve (fun _ => [1]) [1] bigRows).context.length = 7 := by
  have h1 := hybrid_retrieval_funnel (fun _ => [1]) [1] sampleRows (by decide)
  have h2 := hybrid_retrieval_funnel (fun _ => [1]) [1] bigRows (by decide)
  have hgt : DEFAULT_LIMIT < bigRows.length := by decide
  exact ⟨h1.1 (by decide), (h2.2 hgt).1, (h2.2 hgt).2.1, (h2.2 hgt).2.2.1⟩
